import Mathlib

/-!
Verification development for the PDF-outline-to-spreadsheet converter
(`main_app.py`).  The core logic — the line-oriented outline parser
`parse_text_to_excel_with_merging` and the run-length cell-merging routine
`merge_consecutive_cells` — is shallowly embedded below.  Lines are modelled
as `List Char`; the Python regular expressions of the source, which are only
ever applied (anchored, via `.match`) to single newline-free lines, are
translated to explicit character-list scanners.  Character classes model the
ASCII fragment of Python's `\d`, `\s` and `str.strip()`, which covers every
character class the program's patterns distinguish.
-/

/-- ASCII fragment of Python's regex class `\d` (`re.compile` on `str`). -/
def isDigitChar (c : Char) : Bool := c.isDigit

/-- ASCII fragment of Python's regex class `\s` and of the character set
stripped by `str.strip()`: space, tab, newline, carriage return, vertical
tab and form feed. -/
def isSpaceChar (c : Char) : Bool :=
  c == ' ' || c == '\t' || c == '\n' || c == '\r' || c == '\x0b' || c == '\x0c'

/-- Python's `str.strip()` on a line, as a character list: drop leading and
trailing whitespace. -/
def pyStripL (cs : List Char) : List Char :=
  ((cs.dropWhile isSpaceChar).reverse.dropWhile isSpaceChar).reverse

/-- Build a `String` back from a character list (for record fields). -/
def lstr (cs : List Char) : String := String.mk cs

/-- Python's `str.strip()` on a `String`. -/
def pyStrip (s : String) : String := lstr (pyStripL s.toList)

/-- The optional tail `(?:\s+.+)?$` shared by the three heading patterns of
`main_app.py` (lines 120-122): the remainder after the dotted numeral is
either empty or one-or-more whitespace followed by at least one character.
On a newline-free remainder this holds exactly when the remainder is empty,
or starts with whitespace and has length at least two. -/
def tailCond : List Char → Bool
  | [] => true
  | c :: rest => isSpaceChar c && !rest.isEmpty

/-- `pattern_level1 = ^\s*(\d+(?:\s+.+)?)$` (line 120), applied via `.match`
to the already-stripped line, so the leading `\s*` is vacuous and group 1 is
the whole line. -/
def matchLevel1 (cs : List Char) : Bool :=
  !(cs.takeWhile isDigitChar).isEmpty && tailCond (cs.dropWhile isDigitChar)

/-- `pattern_level2 = ^\s*(\d+\.\d+(?:\s+.+)?)$` (line 121) on the stripped
line. -/
def matchLevel2 (cs : List Char) : Bool :=
  match cs.dropWhile isDigitChar with
  | [] => false
  | c :: r2 =>
    c == '.' &&
      (!(cs.takeWhile isDigitChar).isEmpty && !(r2.takeWhile isDigitChar).isEmpty &&
        tailCond (r2.dropWhile isDigitChar))

/-- `pattern_level3 = ^\s*(\d+\.\d+\.\d+(?:\s+.+)?)$` (line 122) on the
stripped line. -/
def matchLevel3 (cs : List Char) : Bool :=
  match cs.dropWhile isDigitChar with
  | [] => false
  | c :: r2 =>
    c == '.' &&
      (match r2.dropWhile isDigitChar with
       | [] => false
       | c2 :: r3 =>
         c2 == '.' &&
           (!(cs.takeWhile isDigitChar).isEmpty && !(r2.takeWhile isDigitChar).isEmpty &&
             !(r3.takeWhile isDigitChar).isEmpty && tailCond (r3.dropWhile isDigitChar)))

/-- `pattern_list_item = ^\s*(\d+)\.\s+(.+)$` (line 123) on the stripped
line; returns the two capture groups (item number, description).  The
greedy `\s+` backtracks one character when everything after the period is
whitespace, making the last whitespace character the description. -/
def matchListItem (cs : List Char) : Option (List Char × List Char) :=
  match cs.dropWhile isDigitChar with
  | [] => none
  | c :: r2 =>
    if (cs.takeWhile isDigitChar).isEmpty then none
    else if c == '.' then
      let ws := r2.takeWhile isSpaceChar
      let d := r2.dropWhile isSpaceChar
      if ws.isEmpty then none
      else if d.isEmpty then
        if 2 ≤ ws.length then some (cs.takeWhile isDigitChar, [ws.getLastD ' ']) else none
      else some (cs.takeWhile isDigitChar, d)
    else none

/-- The bullet glyph set of `pattern_bullet_item` (line 127):
`• ‣ ●  * - ·`. -/
def isBulletChar (c : Char) : Bool :=
  c == '•' || c == '‣' || c == '●' || c == '' ||
    c == '*' || c == '-' || c == '·'

/-- `pattern_bullet_item = ^[ \t]*[…]\s*(.+)$` (line 127), matched against
the RAW (unstripped) line; returns capture group 1 (the description).  The
greedy `\s*` backtracks one character when everything after the glyph is
whitespace. -/
def matchBullet (cs : List Char) : Option (List Char) :=
  match cs.dropWhile (fun c => c == ' ' || c == '\t') with
  | [] => none
  | c :: r2 =>
    if isBulletChar c then
      let ws := r2.takeWhile isSpaceChar
      let d := r2.dropWhile isSpaceChar
      if d.isEmpty then
        if ws.isEmpty then none else some [ws.getLastD ' ']
      else some d
    else none

/-- One output row of `parsed_data` (lines 151-157 and friends). -/
structure Rec where
  level1 : String
  level2 : String
  level3 : String
  item_no : String
  item_desc : String
deriving DecidableEq

/-- The parser's mutable state across the line loop of
`parse_text_to_excel_with_merging`: the three current heading strings, the
optional `current_list_item_buffer` (item number/glyph, accumulating
description), and the accumulated `parsed_data`. -/
structure PState where
  current_level1 : String
  current_level2 : String
  current_level3 : String
  buffer : Option (String × List Char)
  parsed_data : List Rec
deriving DecidableEq

/-- Appending the buffered list item to `parsed_data` with the current
heading context and a stripped description, then clearing the buffer — the
flush block that appears at lines 150-158, 179-188, 216-223, 232-239 and
255-262 of the source.  A `none` buffer flushes to no change. -/
def flushBuffer (st : PState) : PState :=
  match st.buffer with
  | some nd =>
    { st with
      parsed_data := st.parsed_data ++
        [⟨st.current_level1, st.current_level2, st.current_level3, nd.1, lstr (pyStripL nd.2)⟩],
      buffer := none }
  | none => st

/-- The body of the per-line loop (lines 139-251): strip the line; on a
blank line flush any buffered item; otherwise evaluate all five patterns
(bullet on the raw line), flush the buffer if any pattern matched, and take
the first matching branch in the fixed order level1, level2, level3,
numbered item, bullet item, continuation. -/
def processLine (st : PState) (raw : List Char) : PState :=
  let line := pyStripL raw
  if line.isEmpty then
    flushBuffer st
  else
    let m1 := matchLevel1 line
    let m2 := matchLevel2 line
    let m3 := matchLevel3 line
    let mli := matchListItem line
    let mbi := matchBullet raw
    let st1 := if st.buffer.isSome && (m1 || m2 || m3 || mli.isSome || mbi.isSome) then
      flushBuffer st else st
    if m1 then
      { st1 with current_level1 := lstr line, current_level2 := "", current_level3 := "",
                 parsed_data := st1.parsed_data ++ [⟨lstr line, "", "", "", ""⟩] }
    else if m2 then
      { st1 with current_level2 := lstr line, current_level3 := "",
                 parsed_data := st1.parsed_data ++
                   [⟨st1.current_level1, lstr line, "", "", ""⟩] }
    else if m3 then
      { st1 with current_level3 := lstr line,
                 parsed_data := st1.parsed_data ++
                   [⟨st1.current_level1, st1.current_level2, lstr line, "", ""⟩] }
    else
      match mli with
      | some nd =>
        let st2 := flushBuffer st1
        { st2 with buffer := some (lstr nd.1, nd.2) }
      | none =>
        match mbi with
        | some d =>
          let st2 := flushBuffer st1
          { st2 with buffer := some ("•", d) }
        | none =>
          match st1.buffer with
          | some nd => { st1 with buffer := some (nd.1, nd.2 ++ ' ' :: line) }
          | none => st1

/-- `pdf_text.split('\n')` (line 136), on character lists. -/
def splitLinesAux : List Char → List Char → List (List Char)
  | [], acc => [acc.reverse]
  | c :: rest, acc =>
    if c = '\n' then acc.reverse :: splitLinesAux rest [] else splitLinesAux rest (c :: acc)

/-- Split a text into its newline-separated lines, Python
`split('\n')`-style (an empty text yields one empty line). -/
def splitLinesL (cs : List Char) : List (List Char) := splitLinesAux cs []

/-- The initial parser state: empty heading context, no buffered item, no
records (lines 130-134). -/
def initPState : PState := ⟨"", "", "", none, []⟩

/-- The record-producing core of `parse_text_to_excel_with_merging`
(lines 130-263): split into lines, run the line loop, flush any remaining
buffered item.  (The surrounding spreadsheet construction is modelled by
`toGrid` and `merge_consecutive_cells` below.) -/
def parse_text_to_excel_with_merging (text : String) : List Rec :=
  (flushBuffer ((splitLinesL text.toList).foldl processLine initPState)).parsed_data

/-- The fixed header row (line 108). -/
def headers : List String :=
  ["Level 1 Heading", "Level 2 Heading", "Level 3 Heading", "List Item No.",
   "List Item Description"]

/-- The sheet contents: header row followed by one five-cell row per parsed
record (lines 109 and 268-275). -/
def toGrid (recs : List Rec) : List (List String) :=
  headers :: recs.map (fun r => [r.level1, r.level2, r.level3, r.item_no, r.item_desc])

/-- `cell_value and str(cell_value).strip()` (line 290) for a string cell:
the cell counts as non-empty exactly when it has a non-whitespace
character. -/
def cellNonEmpty (v : String) : Bool := !(pyStripL v.toList).isEmpty

/-- The "end previous merge if exists" emission of `merge_consecutive_cells`
(lines 293-294, 306-307 for `row - 1`; lines 323-324 with `row - 1 =
max_row` at loop exit): with an open run starting at `s`, when positioned
at `row` the run covers sheet rows `s .. row-1` and is emitted exactly when
`start_row < row - 1`, i.e. it spans at least two rows. -/
def flushAt (st : Option (String × Nat)) (row : Nat) : List (Nat × Nat) :=
  match st with
  | some cs => if cs.2 < row - 1 then [(cs.2, row - 1)] else []
  | none => []

/-- The scanning loop of `merge_consecutive_cells` (lines 286-331) over the
remaining cell values, positioned at sheet row `row`, carrying
`(current_value, start_row)` (`none` models both variables being `None`,
which the source always sets together).  Returns the list of merge ranges
`(start_row, end_row)` issued to `sheet.merge_cells`, in order. -/
def mergeGo (st : Option (String × Nat)) (row : Nat) : List String → List (Nat × Nat)
  | [] => flushAt st row
  | v :: rest =>
    if cellNonEmpty v then
      if st.map Prod.fst = some v then
        mergeGo st (row + 1) rest
      else
        flushAt st row ++ mergeGo (some (v, row)) (row + 1) rest
    else
      flushAt st row ++ mergeGo none (row + 1) rest

/-- `merge_consecutive_cells(column_index, sheet)` (lines 278-331) for one
column, as a function from that column's data-row values (sheet rows
`2 .. length+1`; sheet row 1 is the header) to the list of merged ranges.
Mirrors the `sheet.max_row < 2` early return (line 280). -/
def merge_consecutive_cells (vals : List String) : List (Nat × Nat) :=
  if vals.length + 1 < 2 then [] else mergeGo none 2 vals

/-- The value shown in a given sheet row of a column whose data-row values
are `vals` (sheet row `r` holds `vals[r-2]`; out-of-range rows read as
empty). -/
def valAt (vals : List String) (r : Nat) : String := (vals.drop (r - 2)).headD ("")

/-- Sheet row `r` of the column holds a non-empty (after stripping)
value. -/
def goodAt (vals : List String) (r : Nat) : Prop := cellNonEmpty (valAt vals r) = true

/-- Spec notion (§3 "Cell Range", §4.3 "run"): sheet rows `a .. b` are a
maximal contiguous span of rows of the column with identical non-empty
value — every row in the span is non-empty and equal to the first, and the
span extends neither upward nor downward. -/
def maximalRun (vals : List String) (a b : Nat) : Prop :=
  2 ≤ a ∧ a ≤ b ∧ b ≤ vals.length + 1 ∧
  (∀ r, a ≤ r → r ≤ b → goodAt vals r ∧ valAt vals r = valAt vals a) ∧
  (a = 2 ∨ ¬(goodAt vals (a - 1) ∧ valAt vals (a - 1) = valAt vals a)) ∧
  (b = vals.length + 1 ∨ ¬(goodAt vals (b + 1) ∧ valAt vals (b + 1) = valAt vals a))

instance decGoodAt (vals : List String) (r : Nat) : Decidable (goodAt vals r) := by
  unfold goodAt; infer_instance

instance decRunAll (vals : List String) (a b : Nat) :
    Decidable (∀ r, a ≤ r → r ≤ b → goodAt vals r ∧ valAt vals r = valAt vals a) :=
  decidable_of_iff (∀ r, r < b + 1 → a ≤ r → goodAt vals r ∧ valAt vals r = valAt vals a)
    (by
      constructor
      · intro h r h1 h2
        exact h r (by omega) h1
      · intro h r h1 h2
        exact h r h2 (by omega))

instance decMaximalRun (vals : List String) (a b : Nat) : Decidable (maximalRun vals a b) := by
  unfold maximalRun; infer_instance

/-- The loop-state invariant of `mergeGo` at position `row`: either no run
is open and the previous row (if any) was empty, or a run with value `c` is
open, started at row `s`, covering rows `s .. row-1` with equal non-empty
value `c`, and not extendable upward. -/
def stInv (vals : List String) (st : Option (String × Nat)) (row : Nat) : Prop :=
  match st with
  | none => row = 2 ∨ ¬goodAt vals (row - 1)
  | some cs =>
    2 ≤ cs.2 ∧ cs.2 < row ∧
    (∀ r, cs.2 ≤ r → r < row → goodAt vals r ∧ valAt vals r = cs.1) ∧
    (cs.2 = 2 ∨ ¬(goodAt vals (cs.2 - 1) ∧ valAt vals (cs.2 - 1) = cs.1))

/-- The result type of the Eel entry point `parse_pdf_data_to_excel_eel`:
a structured failure dictionary `{"error": msg}` or a success dictionary
carrying the produced sheet. -/
inductive EelResult where
  | error (msg : String)
  | success (grid : List (List String))
deriving DecidableEq

/-- `parse_pdf_data_to_excel_eel` (lines 66-95).  The PDF-text extraction
collaborator (`extract_text_from_pdf_eel`, external I/O over PyMuPDF /
PyPDF2) is abstracted as its outcome: `Except.error e` models the extractor
raising an exception with message `e` (caught at lines 75-77 and returned
as a structured error), `Except.ok t` models it returning text `t`.  An
all-whitespace extraction yields the structured "no content" error of
lines 79-80; otherwise the parsed grid is returned as a success. -/
def parse_pdf_data_to_excel_eel (extract : Except String String) : EelResult :=
  match extract with
  | Except.error e => EelResult.error e
  | Except.ok pdf_text =>
    if (pyStripL pdf_text.toList).isEmpty then
      EelResult.error ("No text could be extracted from the PDF data.")
    else
      EelResult.success (toGrid (parse_text_to_excel_with_merging pdf_text))

lemma head?_dropWhile_false {p : Char → Bool} :
    ∀ (l : List Char) (c : Char), (l.dropWhile p).head? = some c → p c = false := by
  intro l
  induction l with
  | nil => intro c h; simp at h
  | cons a t ih =>
    intro c h
    by_cases ha : p a
    · rw [List.dropWhile_cons_of_pos ha] at h
      exact ih c h
    · rw [List.dropWhile_cons_of_neg ha] at h
      simp only [List.head?_cons, Option.some.injEq] at h
      subst h
      exact Bool.eq_false_iff.mpr ha

lemma pyStripL_getLast_not_space (cs : List Char) (c : Char)
    (h : pyStripL cs = cs) (hl : cs.getLast? = some c) : isSpaceChar c = false := by
  unfold pyStripL at h
  have h2 : (cs.dropWhile isSpaceChar).reverse.dropWhile isSpaceChar = cs.reverse := by
    have := congrArg List.reverse h
    rwa [List.reverse_reverse] at this
  apply head?_dropWhile_false ((cs.dropWhile isSpaceChar).reverse)
  rw [h2, List.head?_reverse]
  exact hl

lemma cellNonEmpty_blank : cellNonEmpty ("") = false := by decide

lemma goodAt_le (vals : List String) (r : Nat) (h : goodAt vals r) : r ≤ vals.length + 1 := by
  by_contra hc
  have hdrop : vals.drop (r - 2) = [] := List.drop_eq_nil_of_le (by omega)
  unfold goodAt valAt at h
  rw [hdrop] at h
  simp only [List.headD_nil] at h
  rw [cellNonEmpty_blank] at h
  exact Bool.false_ne_true h

lemma run_start_unique (vals : List String) (c : String) (s row a b : Nat)
    (h2s : 2 ≤ s) (hsr : s < row)
    (hrun : ∀ r, s ≤ r → r < row → goodAt vals r ∧ valAt vals r = c)
    (hlm : s = 2 ∨ ¬(goodAt vals (s - 1) ∧ valAt vals (s - 1) = c))
    (hm : maximalRun vals a b) (h1 : a ≤ row - 1) (h2 : row - 1 ≤ b) : a = s := by
  obtain ⟨ha2, hab, hbn, hrun2, hlm2, _⟩ := hm
  have hc : valAt vals a = c := by
    have k1 := (hrun2 (row - 1) h1 h2).2
    have k2 := (hrun (row - 1) (by omega) (by omega)).2
    rw [k1] at k2
    exact k2
  rcases Nat.lt_trichotomy a s with h | h | h
  · have hgs := hrun2 (s - 1) (by omega) (by omega)
    rcases hlm with rfl | hlm
    · omega
    · exact absurd ⟨hgs.1, by rw [hgs.2, hc]⟩ hlm
  · exact h
  · have hga := hrun (a - 1) (by omega) (by omega)
    rcases hlm2 with rfl | hlm2
    · omega
    · exact absurd ⟨hga.1, by rw [hga.2, hc]⟩ hlm2

lemma flushAt_none (row : Nat) : flushAt none row = [] := rfl

lemma flushAt_some (c : String) (s row : Nat) :
    flushAt (some (c, s)) row = if s < row - 1 then [(s, row - 1)] else [] := rfl

lemma mergeGo_nil (st : Option (String × Nat)) (row : Nat) :
    mergeGo st row [] = flushAt st row := rfl

lemma mergeGo_cons_good_same (c : String) (s row : Nat) (v : String) (rest : List String)
    (hg : cellNonEmpty v = true) (heq : c = v) :
    mergeGo (some (c, s)) row (v :: rest) = mergeGo (some (c, s)) (row + 1) rest := by
  simp only [mergeGo]
  rw [if_pos hg, if_pos (by simp [heq])]

lemma mergeGo_cons_good_new (c : String) (s row : Nat) (v : String) (rest : List String)
    (hg : cellNonEmpty v = true) (hne : c ≠ v) :
    mergeGo (some (c, s)) row (v :: rest) =
      flushAt (some (c, s)) row ++ mergeGo (some (v, row)) (row + 1) rest := by
  simp only [mergeGo]
  rw [if_pos hg, if_neg (by simp [hne])]

lemma mergeGo_cons_good_none (row : Nat) (v : String) (rest : List String)
    (hg : cellNonEmpty v = true) :
    mergeGo none row (v :: rest) = mergeGo (some (v, row)) (row + 1) rest := by
  simp only [mergeGo]
  rw [if_pos hg, if_neg (by simp)]
  rfl

lemma mergeGo_cons_bad (st : Option (String × Nat)) (row : Nat) (v : String)
    (rest : List String) (hg : cellNonEmpty v = false) :
    mergeGo st row (v :: rest) = flushAt st row ++ mergeGo none (row + 1) rest := by
  simp only [mergeGo]
  rw [if_neg (by simp [hg])]

lemma no_run_ends_at (vals : List String) (a b row : Nat) (hrow : 2 ≤ row)
    (hm : maximalRun vals a b) (hab : a < b) (hb : b = row - 1)
    (h : row = 2 ∨ ¬goodAt vals (row - 1) ∨
      (goodAt vals row ∧ valAt vals row = valAt vals (row - 1) ∧ row ≤ vals.length + 1)) :
    False := by
  obtain ⟨ha2, hab2, hbn, hrun, _, hrm⟩ := hm
  rcases h with h | h | h
  · omega
  · exact h (by rw [← hb]; exact (hrun b (by omega) (le_refl b)).1)
  · have hvb : valAt vals b = valAt vals a := (hrun b (by omega) (le_refl b)).2
    rcases hrm with h2 | h2
    · omega
    · apply h2
      have hb1 : b + 1 = row := by omega
      rw [hb1]
      exact ⟨h.1, by rw [h.2.1, ← hb]; exact hvb⟩

lemma mergeGo_mem_iff (vals : List String) :
    ∀ (rest : List String) (st : Option (String × Nat)) (row : Nat),
      2 ≤ row → vals.drop (row - 2) = rest → stInv vals st row →
      ∀ a b, ((a, b) ∈ mergeGo st row rest ↔ (a < b ∧ maximalRun vals a b ∧ row - 1 ≤ b)) := by
  intro rest
  induction rest with
  | nil =>
    intro st row hrow hdrop hinv a b
    have hlen : vals.length ≤ row - 2 := List.drop_eq_nil_iff.mp hdrop
    cases st with
    | none =>
      have hinv2 : row = 2 ∨ ¬goodAt vals (row - 1) := hinv
      rw [mergeGo_nil, flushAt_none]
      simp only [List.not_mem_nil, false_iff]
      rintro ⟨hab, hm, hb⟩
      obtain ⟨ha2, hab2, hbn, hrun, _, _⟩ := hm
      rcases hinv2 with h2 | hng
      · omega
      · have hg := (hrun b (by omega) (le_refl b)).1
        have hbeq : b = row - 1 := by omega
        rw [hbeq] at hg
        exact hng hg
    | some cs =>
      obtain ⟨c, s⟩ := cs
      have hinv2 : 2 ≤ s ∧ s < row ∧
          (∀ r, s ≤ r → r < row → goodAt vals r ∧ valAt vals r = c) ∧
          (s = 2 ∨ ¬(goodAt vals (s - 1) ∧ valAt vals (s - 1) = c)) := hinv
      obtain ⟨h2s, hsr, hrun, hlm⟩ := hinv2
      have hrow1 : row - 1 ≤ vals.length + 1 :=
        goodAt_le vals (row - 1) (hrun (row - 1) (by omega) (by omega)).1
      have hvs : valAt vals s = c := (hrun s (le_refl s) hsr).2
      rw [mergeGo_nil, flushAt_some]
      by_cases hcase : s < row - 1
      · rw [if_pos hcase]
        simp only [List.mem_singleton, Prod.mk.injEq]
        constructor
        · rintro ⟨rfl, rfl⟩
          refine ⟨hcase, ⟨h2s, by omega, by omega, ?_, ?_, ?_⟩, le_refl _⟩
          · intro r hr1 hr2
            have h := hrun r hr1 (by omega)
            exact ⟨h.1, by rw [h.2, hvs]⟩
          · rcases hlm with h | h
            · exact Or.inl h
            · right
              rw [hvs]
              exact h
          · left
            omega
        · rintro ⟨hab, hm, hb⟩
          have hbeq : b = row - 1 := by
            obtain ⟨_, _, hbn, _, _, _⟩ := hm
            omega
          have haeq : a = s :=
            run_start_unique vals c s row a b h2s hsr hrun hlm hm (by omega) (by omega)
          exact ⟨haeq, hbeq⟩
      · rw [if_neg hcase]
        simp only [List.not_mem_nil, false_iff]
        rintro ⟨hab, hm, hb⟩
        have hbeq : b = row - 1 := by
          obtain ⟨_, _, hbn, _, _, _⟩ := hm
          omega
        have haeq : a = s :=
          run_start_unique vals c s row a b h2s hsr hrun hlm hm (by omega) (by omega)
        omega
  | cons v rest ih =>
    intro st row hrow hdrop hinv a b
    have hv : valAt vals row = v := by
      unfold valAt
      rw [hdrop]
      rfl
    have hdrop2 : vals.drop (row + 1 - 2) = rest := by
      have h1 : row + 1 - 2 = (row - 2) + 1 := by omega
      rw [h1, ← List.tail_drop, hdrop]
      rfl
    have hrowle : row ≤ vals.length + 1 := by
      have hlen := congrArg List.length hdrop
      rw [List.length_drop] at hlen
      simp only [List.length_cons] at hlen
      omega
    cases st with
    | none =>
      have hinv2 : row = 2 ∨ ¬goodAt vals (row - 1) := hinv
      by_cases hg : cellNonEmpty v = true
      · have hgood : goodAt vals row := by
          unfold goodAt
          rw [hv]
          exact hg
        have hinv3 : stInv vals (some (v, row)) (row + 1) := by
          refine ⟨hrow, by omega, ?_, ?_⟩
          · intro r h1 h2
            have hr : r = row := by omega
            subst hr
            exact ⟨hgood, hv⟩
          · rcases hinv2 with h | h
            · exact Or.inl h
            · exact Or.inr (fun hx => h hx.1)
        rw [mergeGo_cons_good_none row v rest hg]
        rw [ih (some (v, row)) (row + 1) (by omega) hdrop2 hinv3 a b]
        constructor
        · rintro ⟨h1, h2, h3⟩
          exact ⟨h1, h2, by omega⟩
        · rintro ⟨h1, h2, h3⟩
          refine ⟨h1, h2, ?_⟩
          by_contra hc
          have hb : b = row - 1 := by omega
          refine no_run_ends_at vals a b row hrow h2 h1 hb ?_
          rcases hinv2 with h | h
          · exact Or.inl h
          · exact Or.inr (Or.inl h)
      · rw [mergeGo_cons_bad none row v rest (by simpa using hg), flushAt_none,
          List.nil_append]
        have hng : ¬goodAt vals row := by
          unfold goodAt
          rw [hv]
          simpa using hg
        have hinv3 : stInv vals none (row + 1) :=
          Or.inr (by simpa only [Nat.add_sub_cancel] using hng)
        rw [ih none (row + 1) (by omega) hdrop2 hinv3 a b]
        constructor
        · rintro ⟨h1, h2, h3⟩
          exact ⟨h1, h2, by omega⟩
        · rintro ⟨h1, h2, h3⟩
          refine ⟨h1, h2, ?_⟩
          by_contra hc
          have hb : b = row - 1 := by omega
          refine no_run_ends_at vals a b row hrow h2 h1 hb ?_
          rcases hinv2 with h | h
          · exact Or.inl h
          · exact Or.inr (Or.inl h)
    | some cs =>
      obtain ⟨c, s⟩ := cs
      have hinv2 : 2 ≤ s ∧ s < row ∧
          (∀ r, s ≤ r → r < row → goodAt vals r ∧ valAt vals r = c) ∧
          (s = 2 ∨ ¬(goodAt vals (s - 1) ∧ valAt vals (s - 1) = c)) := hinv
      obtain ⟨h2s, hsr, hrun, hlm⟩ := hinv2
      have hvs : valAt vals s = c := (hrun s (le_refl s) hsr).2
      have hvprev : valAt vals (row - 1) = c := (hrun (row - 1) (by omega) (by omega)).2
      have hgprev : goodAt vals (row - 1) := (hrun (row - 1) (by omega) (by omega)).1
      by_cases hg : cellNonEmpty v = true
      · have hgood : goodAt vals row := by
          unfold goodAt
          rw [hv]
          exact hg
        by_cases heq : c = v
        · subst heq
          rw [mergeGo_cons_good_same c s row c rest hg rfl]
          have hinv3 : stInv vals (some (c, s)) (row + 1) := by
            refine ⟨h2s, by omega, ?_, hlm⟩
            intro r h1 h2
            rcases Nat.lt_or_ge r row with h | h
            · exact hrun r h1 h
            · have hr : r = row := by omega
              subst hr
              exact ⟨hgood, hv⟩
          rw [ih (some (c, s)) (row + 1) (by omega) hdrop2 hinv3 a b]
          constructor
          · rintro ⟨h1, h2, h3⟩
            exact ⟨h1, h2, by omega⟩
          · rintro ⟨h1, h2, h3⟩
            refine ⟨h1, h2, ?_⟩
            by_contra hc
            have hb : b = row - 1 := by omega
            refine no_run_ends_at vals a b row hrow h2 h1 hb ?_
            exact Or.inr (Or.inr ⟨hgood, by rw [hv, hvprev], hrowle⟩)
        · rw [mergeGo_cons_good_new c s row v rest hg heq, flushAt_some]
          have hinv3 : stInv vals (some (v, row)) (row + 1) := by
            show 2 ≤ row ∧ row < row + 1 ∧
              (∀ r, row ≤ r → r < row + 1 → goodAt vals r ∧ valAt vals r = v) ∧
              (row = 2 ∨ ¬(goodAt vals (row - 1) ∧ valAt vals (row - 1) = v))
            refine ⟨by omega, by omega, ?_, ?_⟩
            · intro r h1 h2
              have hr : r = row := by omega
              subst hr
              exact ⟨hgood, hv⟩
            · right
              rintro ⟨hx1, hx2⟩
              rw [hvprev] at hx2
              exact heq hx2
          have hrec := ih (some (v, row)) (row + 1) (by omega) hdrop2 hinv3
          constructor
          · intro hmem
            rw [List.mem_append] at hmem
            rcases hmem with hmem | hmem
            · by_cases hcase : s < row - 1
              · rw [if_pos hcase] at hmem
                simp only [List.mem_singleton, Prod.mk.injEq] at hmem
                obtain ⟨rfl, rfl⟩ := hmem
                refine ⟨hcase, ⟨h2s, by omega, by omega, ?_, ?_, ?_⟩, le_refl _⟩
                · intro r hr1 hr2
                  have h := hrun r hr1 (by omega)
                  exact ⟨h.1, by rw [h.2, hvs]⟩
                · rcases hlm with h | h
                  · exact Or.inl h
                  · right
                    rw [hvs]
                    exact h
                · right
                  rw [hvs]
                  have hb1 : row - 1 + 1 = row := by omega
                  rw [hb1]
                  rintro ⟨hx1, hx2⟩
                  rw [hv] at hx2
                  exact heq hx2.symm
              · rw [if_neg hcase] at hmem
                simp at hmem
            · have := (hrec a b).mp hmem
              exact ⟨this.1, this.2.1, by omega⟩
          · rintro ⟨h1, h2, h3⟩
            rw [List.mem_append]
            rcases Nat.lt_or_ge b row with hb | hb
            · have hbeq : b = row - 1 := by omega
              have haeq : a = s :=
                run_start_unique vals c s row a b h2s hsr hrun hlm h2 (by omega) (by omega)
              left
              rw [if_pos (by omega)]
              simp only [List.mem_singleton, Prod.mk.injEq]
              exact ⟨haeq, hbeq⟩
            · right
              exact (hrec a b).mpr ⟨h1, h2, by omega⟩
      · rw [mergeGo_cons_bad (some (c, s)) row v rest (by simpa using hg), flushAt_some]
        have hng : ¬goodAt vals row := by
          unfold goodAt
          rw [hv]
          simpa using hg
        have hinv3 : stInv vals none (row + 1) :=
          Or.inr (by simpa only [Nat.add_sub_cancel] using hng)
        have hrec := ih none (row + 1) (by omega) hdrop2 hinv3
        constructor
        · intro hmem
          rw [List.mem_append] at hmem
          rcases hmem with hmem | hmem
          · by_cases hcase : s < row - 1
            · rw [if_pos hcase] at hmem
              simp only [List.mem_singleton, Prod.mk.injEq] at hmem
              obtain ⟨rfl, rfl⟩ := hmem
              refine ⟨hcase, ⟨h2s, by omega, by omega, ?_, ?_, ?_⟩, le_refl _⟩
              · intro r hr1 hr2
                have h := hrun r hr1 (by omega)
                exact ⟨h.1, by rw [h.2, hvs]⟩
              · rcases hlm with h | h
                · exact Or.inl h
                · right
                  rw [hvs]
                  exact h
              · right
                have hb1 : row - 1 + 1 = row := by omega
                rw [hb1]
                rintro ⟨hx1, hx2⟩
                exact hng hx1
            · rw [if_neg hcase] at hmem
              simp at hmem
          · have := (hrec a b).mp hmem
            exact ⟨this.1, this.2.1, by omega⟩
        · rintro ⟨h1, h2, h3⟩
          rw [List.mem_append]
          rcases Nat.lt_or_ge b row with hb | hb
          · have hbeq : b = row - 1 := by omega
            have haeq : a = s :=
              run_start_unique vals c s row a b h2s hsr hrun hlm h2 (by omega) (by omega)
            left
            rw [if_pos (by omega)]
            simp only [List.mem_singleton, Prod.mk.injEq]
            exact ⟨haeq, hbeq⟩
          · right
            exact (hrec a b).mpr ⟨h1, h2, by omega⟩

lemma merge_mem_iff (vals : List String) (a b : Nat) :
    ((a, b) ∈ merge_consecutive_cells vals ↔ (a < b ∧ maximalRun vals a b)) := by
  unfold merge_consecutive_cells
  by_cases h : vals.length + 1 < 2
  · rw [if_pos h]
    simp only [List.not_mem_nil, false_iff]
    rintro ⟨hab, h1, h2, h3, _⟩
    omega
  · rw [if_neg h]
    rw [mergeGo_mem_iff vals vals none 2 (le_refl 2) (by simp) (Or.inl rfl) a b]
    constructor
    · rintro ⟨h1, h2, _⟩
      exact ⟨h1, h2⟩
    · rintro ⟨h1, h2⟩
      exact ⟨h1, h2, by omega⟩

lemma merge_mem_good (vals : List String) (a b r : Nat)
    (hmem : (a, b) ∈ merge_consecutive_cells vals) (h1 : a ≤ r) (h2 : r ≤ b) :
    goodAt vals r := by
  obtain ⟨hab, hm⟩ := (merge_mem_iff vals a b).mp hmem
  exact (hm.2.2.2.1 r h1 h2).1

lemma mergeGo_lb :
    ∀ (rest : List String) (st : Option (String × Nat)) (row a b : Nat),
      (∀ c s, st = some (c, s) → s < row) →
      (a, b) ∈ mergeGo st row rest →
      a < b ∧ (∀ c s, st = some (c, s) → s ≤ a) ∧ (st = none → row ≤ a) := by
  intro rest
  induction rest with
  | nil =>
    intro st row a b hst hmem
    cases st with
    | none =>
      rw [mergeGo_nil, flushAt_none] at hmem
      simp at hmem
    | some cs =>
      obtain ⟨c, s⟩ := cs
      rw [mergeGo_nil, flushAt_some] at hmem
      by_cases hcase : s < row - 1
      · rw [if_pos hcase] at hmem
        simp only [List.mem_singleton, Prod.mk.injEq] at hmem
        obtain ⟨rfl, rfl⟩ := hmem
        refine ⟨hcase, ?_, by rintro h; cases h⟩
        rintro c2 s2 h
        simp only [Option.some.injEq, Prod.mk.injEq] at h
        omega
      · rw [if_neg hcase] at hmem
        simp at hmem
  | cons v rest ih =>
    intro st row a b hst hmem
    by_cases hg : cellNonEmpty v = true
    · cases st with
      | none =>
        rw [mergeGo_cons_good_none row v rest hg] at hmem
        obtain ⟨h1, h2, h3⟩ := ih (some (v, row)) (row + 1) a b
          (by
            rintro c2 s2 h
            simp only [Option.some.injEq, Prod.mk.injEq] at h
            omega) hmem
        have hra : row ≤ a := h2 v row rfl
        refine ⟨h1, ?_, fun _ => hra⟩
        rintro c2 s2 h
        cases h
      | some cs =>
        obtain ⟨c, s⟩ := cs
        have hs : s < row := hst c s rfl
        by_cases heq : c = v
        · rw [mergeGo_cons_good_same c s row v rest hg heq] at hmem
          obtain ⟨h1, h2, h3⟩ := ih (some (c, s)) (row + 1) a b
            (by
              rintro c2 s2 h
              simp only [Option.some.injEq, Prod.mk.injEq] at h
              omega) hmem
          have hsa : s ≤ a := h2 c s rfl
          refine ⟨h1, ?_, by rintro h; cases h⟩
          rintro c2 s2 h
          simp only [Option.some.injEq, Prod.mk.injEq] at h
          omega
        · rw [mergeGo_cons_good_new c s row v rest hg heq, List.mem_append] at hmem
          rcases hmem with hmem | hmem
          · rw [flushAt_some] at hmem
            by_cases hcase : s < row - 1
            · rw [if_pos hcase] at hmem
              simp only [List.mem_singleton, Prod.mk.injEq] at hmem
              obtain ⟨rfl, rfl⟩ := hmem
              refine ⟨hcase, ?_, by rintro h; cases h⟩
              rintro c2 s2 h
              simp only [Option.some.injEq, Prod.mk.injEq] at h
              omega
            · rw [if_neg hcase] at hmem
              simp at hmem
          · obtain ⟨h1, h2, h3⟩ := ih (some (v, row)) (row + 1) a b
              (by
                rintro c2 s2 h
                simp only [Option.some.injEq, Prod.mk.injEq] at h
                omega) hmem
            have hra : row ≤ a := h2 v row rfl
            refine ⟨h1, ?_, by rintro h; cases h⟩
            rintro c2 s2 h
            simp only [Option.some.injEq, Prod.mk.injEq] at h
            omega
    · rw [mergeGo_cons_bad st row v rest (by simpa using hg), List.mem_append] at hmem
      rcases hmem with hmem | hmem
      · cases st with
        | none =>
          rw [flushAt_none] at hmem
          simp at hmem
        | some cs =>
          obtain ⟨c, s⟩ := cs
          rw [flushAt_some] at hmem
          by_cases hcase : s < row - 1
          · rw [if_pos hcase] at hmem
            simp only [List.mem_singleton, Prod.mk.injEq] at hmem
            obtain ⟨rfl, rfl⟩ := hmem
            refine ⟨hcase, ?_, by rintro h; cases h⟩
            rintro c2 s2 h
            simp only [Option.some.injEq, Prod.mk.injEq] at h
            omega
          · rw [if_neg hcase] at hmem
            simp at hmem
      · obtain ⟨h1, h2, h3⟩ := ih none (row + 1) a b (by rintro c2 s2 h; cases h) hmem
        have hra : row + 1 ≤ a := h3 rfl
        cases st with
        | none =>
          refine ⟨h1, ?_, fun _ => by omega⟩
          rintro c2 s2 h
          cases h
        | some cs =>
          obtain ⟨c, s⟩ := cs
          have hs : s < row := hst c s rfl
          refine ⟨h1, ?_, by rintro h; cases h⟩
          rintro c2 s2 h
          simp only [Option.some.injEq, Prod.mk.injEq] at h
          omega

lemma flushAt_pairwise (st : Option (String × Nat)) (row : Nat) :
    List.Pairwise (fun p q : Nat × Nat => p.2 < q.1) (flushAt st row) := by
  cases st with
  | none => simp [flushAt_none]
  | some cs =>
    obtain ⟨c, s⟩ := cs
    rw [flushAt_some]
    by_cases hcase : s < row - 1
    · rw [if_pos hcase]
      simp
    · rw [if_neg hcase]
      simp

lemma mergeGo_pairwise :
    ∀ (rest : List String) (st : Option (String × Nat)) (row : Nat),
      (∀ c s, st = some (c, s) → s < row) →
      List.Pairwise (fun p q : Nat × Nat => p.2 < q.1) (mergeGo st row rest) := by
  intro rest
  induction rest with
  | nil =>
    intro st row hst
    rw [mergeGo_nil]
    exact flushAt_pairwise st row
  | cons v rest ih =>
    intro st row hst
    by_cases hg : cellNonEmpty v = true
    · cases st with
      | none =>
        rw [mergeGo_cons_good_none row v rest hg]
        exact ih (some (v, row)) (row + 1)
          (by
            rintro c2 s2 h
            simp only [Option.some.injEq, Prod.mk.injEq] at h
            omega)
      | some cs =>
        obtain ⟨c, s⟩ := cs
        have hs : s < row := hst c s rfl
        by_cases heq : c = v
        · rw [mergeGo_cons_good_same c s row v rest hg heq]
          exact ih (some (c, s)) (row + 1)
            (by
              rintro c2 s2 h
              simp only [Option.some.injEq, Prod.mk.injEq] at h
              omega)
        · rw [mergeGo_cons_good_new c s row v rest hg heq]
          rw [List.pairwise_append]
          have hnew : ∀ c2 s2, (some (v, row) : Option (String × Nat)) = some (c2, s2) → s2 < row + 1 := by
            rintro c2 s2 h
            simp only [Option.some.injEq, Prod.mk.injEq] at h
            omega
          refine ⟨flushAt_pairwise _ _, ih (some (v, row)) (row + 1) hnew, ?_⟩
          intro x hx y hy
          obtain ⟨y1, y2⟩ := y
          have hlb := mergeGo_lb rest (some (v, row)) (row + 1) y1 y2 hnew hy
          have hra : row ≤ y1 := hlb.2.1 v row rfl
          rw [flushAt_some] at hx
          by_cases hcase : s < row - 1
          · rw [if_pos hcase] at hx
            simp only [List.mem_singleton] at hx
            subst hx
            simp only
            omega
          · rw [if_neg hcase] at hx
            simp at hx
    · rw [mergeGo_cons_bad st row v rest (by simpa using hg)]
      rw [List.pairwise_append]
      refine ⟨flushAt_pairwise _ _, ih none (row + 1) (by rintro c2 s2 h; cases h), ?_⟩
      intro x hx y hy
      obtain ⟨y1, y2⟩ := y
      have hlb := mergeGo_lb rest none (row + 1) y1 y2 (by rintro c2 s2 h; cases h) hy
      have hra : row + 1 ≤ y1 := hlb.2.2 rfl
      cases st with
      | none =>
        rw [flushAt_none] at hx
        simp at hx
      | some cs =>
        obtain ⟨c, s⟩ := cs
        rw [flushAt_some] at hx
        by_cases hcase : s < row - 1
        · rw [if_pos hcase] at hx
          simp only [List.mem_singleton] at hx
          subst hx
          simp only
          omega
        · rw [if_neg hcase] at hx
          simp at hx

lemma merge_pairwise (vals : List String) :
    List.Pairwise (fun p q : Nat × Nat => p.2 < q.1) (merge_consecutive_cells vals) := by
  unfold merge_consecutive_cells
  by_cases h : vals.length + 1 < 2
  · rw [if_pos h]
    simp
  · rw [if_neg h]
    exact mergeGo_pairwise vals none 2 (by rintro c s hcs; cases hcs)

lemma flushBuffer_none (st : PState) (h : st.buffer = none) : flushBuffer st = st := by
  unfold flushBuffer
  rw [h]

lemma flushBuffer_buffer (st : PState) : (flushBuffer st).buffer = none := by
  unfold flushBuffer
  cases h : st.buffer with
  | none => rw [h]
  | some nd => rfl

lemma flushBuffer_idem (st : PState) : flushBuffer (flushBuffer st) = flushBuffer st :=
  flushBuffer_none (flushBuffer st) (flushBuffer_buffer st)

lemma flushBuffer_parsed (st : PState) :
    ∃ new, (flushBuffer st).parsed_data = st.parsed_data ++ new := by
  unfold flushBuffer
  cases h : st.buffer with
  | none => exact ⟨[], by simp⟩
  | some nd =>
    exact ⟨[⟨st.current_level1, st.current_level2, st.current_level3, nd.1,
      lstr (pyStripL nd.2)⟩], rfl⟩

lemma flushBuffer_level1 (st : PState) :
    (flushBuffer st).current_level1 = st.current_level1 := by
  unfold flushBuffer
  cases h : st.buffer with
  | none => rfl
  | some nd => rfl

lemma flushBuffer_level2 (st : PState) :
    (flushBuffer st).current_level2 = st.current_level2 := by
  unfold flushBuffer
  cases h : st.buffer with
  | none => rfl
  | some nd => rfl

lemma flushBuffer_level3 (st : PState) :
    (flushBuffer st).current_level3 = st.current_level3 := by
  unfold flushBuffer
  cases h : st.buffer with
  | none => rfl
  | some nd => rfl

lemma processLine_blank (st : PState) (raw : List Char)
    (h : (pyStripL raw).isEmpty = true) :
    processLine st raw = flushBuffer st := by
  cases hb : st.buffer with
  | none => simp [processLine, h]
  | some nd => simp [processLine, h]

lemma processLine_h1 (st : PState) (raw : List Char)
    (h0 : (pyStripL raw).isEmpty = false) (h1 : matchLevel1 (pyStripL raw) = true) :
    processLine st raw =
      ⟨lstr (pyStripL raw), "", "", none,
        (flushBuffer st).parsed_data ++ [⟨lstr (pyStripL raw), "", "", "", ""⟩]⟩ := by
  cases hb : st.buffer with
  | none => simp [processLine, flushBuffer, h0, h1, hb]
  | some nd => simp [processLine, flushBuffer, h0, h1, hb]

lemma processLine_h2 (st : PState) (raw : List Char)
    (h0 : (pyStripL raw).isEmpty = false) (h1 : matchLevel1 (pyStripL raw) = false)
    (h2 : matchLevel2 (pyStripL raw) = true) :
    processLine st raw =
      ⟨st.current_level1, lstr (pyStripL raw), "", none,
        (flushBuffer st).parsed_data ++
          [⟨st.current_level1, lstr (pyStripL raw), "", "", ""⟩]⟩ := by
  cases hb : st.buffer with
  | none => simp [processLine, flushBuffer, h0, h1, h2, hb]
  | some nd => simp [processLine, flushBuffer, h0, h1, h2, hb]

lemma processLine_h3 (st : PState) (raw : List Char)
    (h0 : (pyStripL raw).isEmpty = false) (h1 : matchLevel1 (pyStripL raw) = false)
    (h2 : matchLevel2 (pyStripL raw) = false) (h3 : matchLevel3 (pyStripL raw) = true) :
    processLine st raw =
      ⟨st.current_level1, st.current_level2, lstr (pyStripL raw), none,
        (flushBuffer st).parsed_data ++
          [⟨st.current_level1, st.current_level2, lstr (pyStripL raw), "", ""⟩]⟩ := by
  cases hb : st.buffer with
  | none => simp [processLine, flushBuffer, h0, h1, h2, h3, hb]
  | some nd => simp [processLine, flushBuffer, h0, h1, h2, h3, hb]

lemma processLine_li (st : PState) (raw : List Char) (nd : List Char × List Char)
    (h0 : (pyStripL raw).isEmpty = false) (h1 : matchLevel1 (pyStripL raw) = false)
    (h2 : matchLevel2 (pyStripL raw) = false) (h3 : matchLevel3 (pyStripL raw) = false)
    (hli : matchListItem (pyStripL raw) = some nd) :
    processLine st raw =
      ⟨st.current_level1, st.current_level2, st.current_level3,
        some (lstr nd.1, nd.2), (flushBuffer st).parsed_data⟩ := by
  cases hb : st.buffer with
  | none => simp [processLine, flushBuffer, h0, h1, h2, h3, hli, hb]
  | some nd2 => simp [processLine, flushBuffer, h0, h1, h2, h3, hli, hb]

lemma processLine_bullet (st : PState) (raw : List Char) (d : List Char)
    (h0 : (pyStripL raw).isEmpty = false) (h1 : matchLevel1 (pyStripL raw) = false)
    (h2 : matchLevel2 (pyStripL raw) = false) (h3 : matchLevel3 (pyStripL raw) = false)
    (hli : matchListItem (pyStripL raw) = none) (hbu : matchBullet raw = some d) :
    processLine st raw =
      ⟨st.current_level1, st.current_level2, st.current_level3,
        some ("•", d), (flushBuffer st).parsed_data⟩ := by
  cases hb : st.buffer with
  | none => simp [processLine, flushBuffer, h0, h1, h2, h3, hli, hbu, hb]
  | some nd2 => simp [processLine, flushBuffer, h0, h1, h2, h3, hli, hbu, hb]

lemma processLine_cont_some (st : PState) (raw : List Char) (nd : String × List Char)
    (h0 : (pyStripL raw).isEmpty = false) (h1 : matchLevel1 (pyStripL raw) = false)
    (h2 : matchLevel2 (pyStripL raw) = false) (h3 : matchLevel3 (pyStripL raw) = false)
    (hli : matchListItem (pyStripL raw) = none) (hbu : matchBullet raw = none)
    (hb : st.buffer = some nd) :
    processLine st raw = { st with buffer := some (nd.1, nd.2 ++ ' ' :: pyStripL raw) } := by
  simp [processLine, h0, h1, h2, h3, hli, hbu, hb]

lemma processLine_cont_none (st : PState) (raw : List Char)
    (h0 : (pyStripL raw).isEmpty = false) (h1 : matchLevel1 (pyStripL raw) = false)
    (h2 : matchLevel2 (pyStripL raw) = false) (h3 : matchLevel3 (pyStripL raw) = false)
    (hli : matchListItem (pyStripL raw) = none) (hbu : matchBullet raw = none)
    (hb : st.buffer = none) :
    processLine st raw = st := by
  simp [processLine, h0, h1, h2, h3, hli, hbu, hb]

lemma space_not_digit (c : Char) (h : isSpaceChar c = true) : isDigitChar c = false := by
  unfold isSpaceChar at h
  simp only [Bool.or_eq_true, beq_iff_eq] at h
  rcases h with ((((h | h) | h) | h) | h) | h <;> subst h <;> decide

lemma space_ne_dot (c : Char) (h : isSpaceChar c = true) : c ≠ '.' := by
  unfold isSpaceChar at h
  simp only [Bool.or_eq_true, beq_iff_eq] at h
  rcases h with ((((h | h) | h) | h) | h) | h <;> subst h <;> decide

lemma digit_takeWhile (ds t : List Char) (hd : ∀ c ∈ ds, isDigitChar c = true) :
    (ds ++ '.' :: t).takeWhile isDigitChar = ds := by
  rw [List.takeWhile_append_of_pos hd, List.takeWhile_cons_of_neg (by decide)]
  simp

lemma digit_dropWhile (ds t : List Char) (hd : ∀ c ∈ ds, isDigitChar c = true) :
    (ds ++ '.' :: t).dropWhile isDigitChar = '.' :: t := by
  rw [List.dropWhile_append_of_pos hd, List.dropWhile_cons_of_neg (by decide)]

lemma nonSpaceHead_takeWhile (w rest : List Char) (hw : ∀ c ∈ w, isSpaceChar c = true)
    (hr : ∀ c, rest.head? = some c → isSpaceChar c = false) :
    (w ++ rest).takeWhile isSpaceChar = w := by
  rw [List.takeWhile_append_of_pos hw]
  cases rest with
  | nil => simp
  | cons rh rt =>
    rw [List.takeWhile_cons_of_neg (by simp [hr rh rfl])]
    simp

lemma nonSpaceHead_dropWhile (w rest : List Char) (hw : ∀ c ∈ w, isSpaceChar c = true)
    (hr : ∀ c, rest.head? = some c → isSpaceChar c = false) :
    (w ++ rest).dropWhile isSpaceChar = rest := by
  rw [List.dropWhile_append_of_pos hw]
  cases rest with
  | nil => simp
  | cons rh rt => rw [List.dropWhile_cons_of_neg (by simp [hr rh rfl])]

lemma tailCond_of_spec_tail (pre t : List Char)
    (htrim : pyStripL (pre ++ t) = pre ++ t)
    (ht : t = [] ∨ ∃ w u, t = w ++ u ∧ w ≠ [] ∧ (∀ c ∈ w, isSpaceChar c = true)) :
    tailCond t = true := by
  rcases ht with rfl | ⟨w, u, rfl, hw, hws⟩
  · rfl
  · cases u with
    | nil =>
      exfalso
      have hlast : (pre ++ (w ++ [])).getLast? = some (w.getLast hw) := by
        rw [List.getLast?_append_of_ne_nil pre (by simpa using hw)]
        simp only [List.append_nil]
        exact List.getLast?_eq_getLast w hw
      have hc := pyStripL_getLast_not_space (pre ++ (w ++ [])) (w.getLast hw) htrim hlast
      rw [hws (w.getLast hw) (List.getLast_mem hw)] at hc
      exact Bool.noConfusion hc
    | cons x u2 =>
      cases w with
      | nil => exact absurd rfl hw
      | cons wh wt =>
        show tailCond (wh :: (wt ++ x :: u2)) = true
        show (isSpaceChar wh && !(wt ++ x :: u2).isEmpty) = true
        rw [hws wh (by simp)]
        simp

lemma tailCond_nil : tailCond [] = true := rfl

lemma tailCond_cons (c : Char) (l : List Char) :
    tailCond (c :: l) = (isSpaceChar c && !l.isEmpty) := rfl

lemma nonDigitHead_takeWhile (ds t : List Char) (hd : ∀ c ∈ ds, isDigitChar c = true)
    (ht : ∀ c, t.head? = some c → isDigitChar c = false) :
    (ds ++ t).takeWhile isDigitChar = ds := by
  rw [List.takeWhile_append_of_pos hd]
  cases t with
  | nil => simp
  | cons th tt =>
    rw [List.takeWhile_cons_of_neg (by simp [ht th rfl])]
    simp

lemma nonDigitHead_dropWhile (ds t : List Char) (hd : ∀ c ∈ ds, isDigitChar c = true)
    (ht : ∀ c, t.head? = some c → isDigitChar c = false) :
    (ds ++ t).dropWhile isDigitChar = t := by
  rw [List.dropWhile_append_of_pos hd]
  cases t with
  | nil => simp
  | cons th tt => rw [List.dropWhile_cons_of_neg (by simp [ht th rfl])]

lemma numbered_line_matches (ds w rest : List Char)
    (hds : ds ≠ []) (hdsd : ∀ c ∈ ds, isDigitChar c = true)
    (hw : w ≠ []) (hwsp : ∀ c ∈ w, isSpaceChar c = true)
    (hrest : rest ≠ []) (hrh : ∀ c, rest.head? = some c → isSpaceChar c = false) :
    matchLevel1 (ds ++ '.' :: (w ++ rest)) = false ∧
    matchLevel2 (ds ++ '.' :: (w ++ rest)) = false ∧
    matchLevel3 (ds ++ '.' :: (w ++ rest)) = false ∧
    matchListItem (ds ++ '.' :: (w ++ rest)) = some (ds, rest) := by
  have htake := digit_takeWhile ds (w ++ rest) hdsd
  have hdrop := digit_dropWhile ds (w ++ rest) hdsd
  have hwtake := nonSpaceHead_takeWhile w rest hwsp hrh
  have hwdrop := nonSpaceHead_dropWhile w rest hwsp hrh
  have hdse : ds.isEmpty = false := by
    cases ds with
    | nil => exact absurd rfl hds
    | cons a t => rfl
  have hreste : rest.isEmpty = false := by
    cases rest with
    | nil => exact absurd rfl hrest
    | cons a t => rfl
  have hwe : w.isEmpty = false := by
    cases w with
    | nil => exact absurd rfl hw
    | cons a t => rfl
  obtain ⟨wh, wt, rfl⟩ : ∃ wh wt, w = wh :: wt := by
    cases w with
    | nil => exact absurd rfl hw
    | cons wh wt => exact ⟨wh, wt, rfl⟩
  have hwh : isSpaceChar wh = true := hwsp wh (by simp)
  have hwhd : isDigitChar wh = false := space_not_digit wh hwh
  have hwhdot : (wh == '.') = false := by
    simp only [beq_eq_false_iff_ne, ne_eq]
    exact space_ne_dot wh hwh
  have hdotsp : isSpaceChar '.' = false := by decide
  refine ⟨?_, ?_, ?_, ?_⟩
  · unfold matchLevel1
    rw [htake, hdrop]
    simp [tailCond_cons, hdotsp]
  · unfold matchLevel2
    rw [hdrop]
    simp [htake, hdse, hwhd]
  · unfold matchLevel3
    rw [hdrop]
    simp [htake, hdse, hwhd, hwhdot]
  · unfold matchListItem
    rw [hdrop]
    simp only [List.cons_append] at htake hwtake hwdrop
    simp [htake, hdse, hwtake, hwdrop, hreste, hwe]

lemma heading3_line_matches (d1 d2 d3 t : List Char)
    (h1 : d1 ≠ []) (h1d : ∀ c ∈ d1, isDigitChar c = true)
    (h2 : d2 ≠ []) (h2d : ∀ c ∈ d2, isDigitChar c = true)
    (h3 : d3 ≠ []) (h3d : ∀ c ∈ d3, isDigitChar c = true)
    (htd : ∀ c, t.head? = some c → isDigitChar c = false)
    (htc : tailCond t = true) :
    matchLevel1 (d1 ++ '.' :: (d2 ++ '.' :: (d3 ++ t))) = false ∧
    matchLevel2 (d1 ++ '.' :: (d2 ++ '.' :: (d3 ++ t))) = false ∧
    matchLevel3 (d1 ++ '.' :: (d2 ++ '.' :: (d3 ++ t))) = true := by
  have ht1 := digit_takeWhile d1 (d2 ++ '.' :: (d3 ++ t)) h1d
  have hd1 := digit_dropWhile d1 (d2 ++ '.' :: (d3 ++ t)) h1d
  have ht2 := digit_takeWhile d2 (d3 ++ t) h2d
  have hd2 := digit_dropWhile d2 (d3 ++ t) h2d
  have ht3 := nonDigitHead_takeWhile d3 t h3d htd
  have hd3 := nonDigitHead_dropWhile d3 t h3d htd
  have h1e : d1.isEmpty = false := by
    cases d1 with
    | nil => exact absurd rfl h1
    | cons a l => rfl
  have h2e : d2.isEmpty = false := by
    cases d2 with
    | nil => exact absurd rfl h2
    | cons a l => rfl
  have h3e : d3.isEmpty = false := by
    cases d3 with
    | nil => exact absurd rfl h3
    | cons a l => rfl
  have hdotsp : isSpaceChar '.' = false := by decide
  refine ⟨?_, ?_, ?_⟩
  · unfold matchLevel1
    rw [ht1, hd1]
    simp [tailCond_cons, hdotsp]
  · unfold matchLevel2
    rw [hd1]
    simp [ht1, h1e, ht2, hd2, tailCond_cons, hdotsp]
  · unfold matchLevel3
    rw [hd1]
    simp [ht1, h1e, ht2, hd2, h2e, ht3, hd3, h3e, htc]

lemma tabsp_space (c : Char) (h : (c == ' ' || c == '\t') = true) : isSpaceChar c = true := by
  simp only [Bool.or_eq_true, beq_iff_eq] at h
  rcases h with h | h <;> subst h <;> decide

lemma bullet_not_space (c : Char) (h : isBulletChar c = true) : isSpaceChar c = false := by
  unfold isBulletChar at h
  simp only [Bool.or_eq_true, beq_iff_eq] at h
  rcases h with (((((h | h) | h) | h) | h) | h) | h <;> subst h <;> decide

lemma bullet_not_digit (c : Char) (h : isBulletChar c = true) : isDigitChar c = false := by
  unfold isBulletChar at h
  simp only [Bool.or_eq_true, beq_iff_eq] at h
  rcases h with (((((h | h) | h) | h) | h) | h) | h <;> subst h <;> decide

lemma bullet_ne_dot (c : Char) (h : isBulletChar c = true) : (c == '.') = false := by
  unfold isBulletChar at h
  simp only [Bool.or_eq_true, beq_iff_eq] at h
  rcases h with (((((h | h) | h) | h) | h) | h) | h <;> subst h <;> decide

lemma bullet_strip (raw : List Char) (d : List Char) (hmb : matchBullet raw = some d) :
    ∃ b t, pyStripL raw = b :: t ∧ isBulletChar b = true := by
  unfold matchBullet at hmb
  cases hsp : raw.dropWhile (fun c => c == ' ' || c == '\t') with
  | nil =>
    rw [hsp] at hmb
    simp at hmb
  | cons b r2 =>
    rw [hsp] at hmb
    by_cases hb : isBulletChar b = true
    · have hbs : isSpaceChar b = false := bullet_not_space b hb
      have hsplit : raw = raw.takeWhile (fun c => c == ' ' || c == '\t') ++ (b :: r2) := by
        rw [← hsp]
        exact (List.takeWhile_append_dropWhile _ _).symm
      have hpre : ∀ c ∈ raw.takeWhile (fun c => c == ' ' || c == '\t'), isSpaceChar c = true := by
        intro c hc
        have h2 := List.mem_takeWhile_imp hc
        exact tabsp_space c (by simpa using h2)
      have hdropsp : raw.dropWhile isSpaceChar = b :: r2 := by
        conv_lhs => rw [hsplit]
        rw [List.dropWhile_append_of_pos hpre, List.dropWhile_cons_of_neg (by simp [hbs])]
      unfold pyStripL
      rw [hdropsp, List.reverse_cons, List.dropWhile_append]
      by_cases he : (r2.reverse.dropWhile isSpaceChar).isEmpty = true
      · rw [if_pos he, List.dropWhile_cons_of_neg (by simp [hbs])]
        exact ⟨b, [], by simp, hb⟩
      · rw [if_neg he]
        exact ⟨b, (r2.reverse.dropWhile isSpaceChar).reverse, by simp, hb⟩
    · simp [hb] at hmb

lemma bullet_line_matchers (raw : List Char) (d : List Char)
    (hmb : matchBullet raw = some d) :
    (pyStripL raw).isEmpty = false ∧ matchLevel1 (pyStripL raw) = false ∧
    matchLevel2 (pyStripL raw) = false ∧ matchLevel3 (pyStripL raw) = false ∧
    matchListItem (pyStripL raw) = none := by
  obtain ⟨b, t, hline, hb⟩ := bullet_strip raw d hmb
  rw [hline]
  have hbd : isDigitChar b = false := bullet_not_digit b hb
  have hbdot : (b == '.') = false := bullet_ne_dot b hb
  refine ⟨rfl, ?_, ?_, ?_, ?_⟩
  · simp [matchLevel1, hbd]
  · simp [matchLevel2, hbd, hbdot]
  · simp [matchLevel3, hbd, hbdot]
  · simp [matchListItem, hbd]

/-- C1 counterexample: the trimmed line "3. Some text" has the exact form
'N. text', but no heading pattern matches it (each heading pattern requires
whitespace immediately after its dotted numeral, never a period), the
numbered-list pattern does match it, and parsing it yields a numbered list
item record — not a heading record.  This refutes the claim that such lines
are absorbed as headings. -/
theorem c1_counterexample :
    matchLevel1 ("3. Some text".toList) = false ∧
    matchLevel2 ("3. Some text".toList) = false ∧
    matchLevel3 ("3. Some text".toList) = false ∧
    matchListItem ("3. Some text".toList) = some ("3".toList, "Some text".toList) ∧
    parse_text_to_excel_with_merging ("3. Some text") =
      [⟨"", "", "", "3", "Some text"⟩] := by
  decide

/-- C1 (amended): for every trimmed line of the exact form 'N. text' (one or
more digits `ds`, a literal period, whitespace `w`, then text `rest`), none
of the three heading patterns matches — they all require whitespace directly
after the digit segment — the numbered-list pattern matches with groups
`(ds, rest)`, and the state machine, from any state, buffers the line as a
numbered list item (flushing any pending item first).  The precedence of
heading patterns over the list pattern is therefore irrelevant for such
lines. -/
theorem c1_numbered_line_is_list_item (st : PState) (ds w rest : List Char)
    (hds : ds ≠ []) (hdsd : ∀ c ∈ ds, isDigitChar c = true)
    (hw : w ≠ []) (hwsp : ∀ c ∈ w, isSpaceChar c = true)
    (hrest : rest ≠ []) (hrh : ∀ c, rest.head? = some c → isSpaceChar c = false)
    (htrim : pyStripL (ds ++ '.' :: (w ++ rest)) = ds ++ '.' :: (w ++ rest)) :
    matchLevel1 (ds ++ '.' :: (w ++ rest)) = false ∧
    matchLevel2 (ds ++ '.' :: (w ++ rest)) = false ∧
    matchLevel3 (ds ++ '.' :: (w ++ rest)) = false ∧
    matchListItem (ds ++ '.' :: (w ++ rest)) = some (ds, rest) ∧
    processLine st (ds ++ '.' :: (w ++ rest)) =
      ⟨st.current_level1, st.current_level2, st.current_level3,
        some (lstr ds, rest), (flushBuffer st).parsed_data⟩ := by
  obtain ⟨hm1, hm2, hm3, hmli⟩ := numbered_line_matches ds w rest hds hdsd hw hwsp hrest hrh
  have h0 : (pyStripL (ds ++ '.' :: (w ++ rest))).isEmpty = false := by
    rw [htrim]
    cases ds with
    | nil => exact absurd rfl hds
    | cons a t => rfl
  refine ⟨hm1, hm2, hm3, hmli, ?_⟩
  exact processLine_li st (ds ++ '.' :: (w ++ rest)) (ds, rest) h0
    (by rw [htrim]; exact hm1) (by rw [htrim]; exact hm2)
    (by rw [htrim]; exact hm3) (by rw [htrim]; exact hmli)

/-- Witness for the amended C1 at the concrete line "3. x". -/
theorem c1_numbered_line_is_list_item_witness :
    matchListItem ("3".toList ++ '.' :: ([' '] ++ "x".toList)) =
      some ("3".toList, "x".toList) ∧
    processLine initPState ("3".toList ++ '.' :: ([' '] ++ "x".toList)) =
      ⟨"", "", "", some ("3", "x".toList), []⟩ := by
  have h := c1_numbered_line_is_list_item initPState ("3".toList) [' '] ("x".toList)
    (by decide) (by decide) (by decide) (by decide) (by decide)
    (by
      intro c hc
      have hx : ("x".toList).head? = some 'x' := rfl
      rw [hx] at hc
      injection hc with hc2
      subst hc2
      decide)
    (by decide)
  exact ⟨h.2.2.2.1, h.2.2.2.2⟩

/-- C2: parsing "2.\tFirst item\nmore detail\n\n3. Second item" emits exactly
the two item records {itemNo="2", itemDesc="First item more detail"} and
{itemNo="3", itemDesc="Second item"}; moreover, after the continuation line
"more detail" the pending description is exactly "First item more detail" —
the continuation was appended with exactly one separating space. -/
theorem c2_two_item_records :
    parse_text_to_excel_with_merging ("2.\tFirst item\nmore detail\n\n3. Second item") =
      [⟨"", "", "", "2", "First item more detail"⟩,
        ⟨"", "", "", "3", "Second item"⟩] ∧
    (processLine (processLine initPState ("2.\tFirst item".toList))
        ("more detail".toList)).buffer =
      some ("2", "First item more detail".toList) := by
  decide

/-- C3: every trimmed line matching the three-segment pattern
`^\d+\.\d+\.\d+(\s+.*)?$` (digit runs `d1`, `d2`, `d3`, optional whitespace
tail `t`) matches the Heading3 pattern and neither the Heading1 nor the
Heading2 pattern, so from any parser state the line is classified as
Heading3 and emits a heading-3 record — independently of whether the
narrower dotted patterns are tested before or after the broader ones. -/
theorem c3_heading3_classification (st : PState) (d1 d2 d3 t : List Char)
    (h1 : d1 ≠ []) (h1d : ∀ c ∈ d1, isDigitChar c = true)
    (h2 : d2 ≠ []) (h2d : ∀ c ∈ d2, isDigitChar c = true)
    (h3 : d3 ≠ []) (h3d : ∀ c ∈ d3, isDigitChar c = true)
    (ht : t = [] ∨ ∃ w u, t = w ++ u ∧ w ≠ [] ∧ (∀ c ∈ w, isSpaceChar c = true))
    (htrim : pyStripL (d1 ++ '.' :: (d2 ++ '.' :: (d3 ++ t))) =
      d1 ++ '.' :: (d2 ++ '.' :: (d3 ++ t))) :
    matchLevel3 (d1 ++ '.' :: (d2 ++ '.' :: (d3 ++ t))) = true ∧
    matchLevel1 (d1 ++ '.' :: (d2 ++ '.' :: (d3 ++ t))) = false ∧
    matchLevel2 (d1 ++ '.' :: (d2 ++ '.' :: (d3 ++ t))) = false ∧
    processLine st (d1 ++ '.' :: (d2 ++ '.' :: (d3 ++ t))) =
      ⟨st.current_level1, st.current_level2,
        lstr (d1 ++ '.' :: (d2 ++ '.' :: (d3 ++ t))), none,
        (flushBuffer st).parsed_data ++
          [⟨st.current_level1, st.current_level2,
            lstr (d1 ++ '.' :: (d2 ++ '.' :: (d3 ++ t))), "", ""⟩]⟩ := by
  have hL : d1 ++ '.' :: (d2 ++ '.' :: (d3 ++ t)) =
      (d1 ++ '.' :: (d2 ++ '.' :: d3)) ++ t := by
    simp [List.append_assoc]
  have htc : tailCond t = true := by
    refine tailCond_of_spec_tail (d1 ++ '.' :: (d2 ++ '.' :: d3)) t ?_ ht
    rw [← hL]
    exact htrim
  have htd : ∀ c, t.head? = some c → isDigitChar c = false := by
    rcases ht with rfl | ⟨w, u, rfl, hwne, hws⟩
    · intro c hc
      simp at hc
    · cases w with
      | nil => exact absurd rfl hwne
      | cons wh wt =>
        intro c hc
        simp only [List.cons_append, List.head?_cons, Option.some.injEq] at hc
        subst hc
        exact space_not_digit wh (hws wh (by simp))
  obtain ⟨hm1, hm2, hm3⟩ := heading3_line_matches d1 d2 d3 t h1 h1d h2 h2d h3 h3d htd htc
  have h0 : (pyStripL (d1 ++ '.' :: (d2 ++ '.' :: (d3 ++ t)))).isEmpty = false := by
    rw [htrim]
    cases d1 with
    | nil => exact absurd rfl h1
    | cons a l => rfl
  refine ⟨hm3, hm1, hm2, ?_⟩
  have h := processLine_h3 st (d1 ++ '.' :: (d2 ++ '.' :: (d3 ++ t))) h0
    (by rw [htrim]; exact hm1) (by rw [htrim]; exact hm2) (by rw [htrim]; exact hm3)
  rw [htrim] at h
  exact h

/-- Witness for C3 at the concrete line "1.2.3 x" from the initial state. -/
theorem c3_heading3_classification_witness :
    matchLevel3 ("1".toList ++ '.' :: ("2".toList ++ '.' :: ("3".toList ++ " x".toList))) =
      true ∧
    processLine initPState
        ("1".toList ++ '.' :: ("2".toList ++ '.' :: ("3".toList ++ " x".toList))) =
      ⟨"", "", "1.2.3 x", none, [⟨"", "", "1.2.3 x", "", ""⟩]⟩ := by
  have h := c3_heading3_classification initPState ("1".toList) ("2".toList) ("3".toList)
    (" x".toList) (by decide) (by decide) (by decide) (by decide) (by decide) (by decide)
    (Or.inr ⟨[' '], "x".toList, by decide, by decide, by decide⟩) (by decide)
  exact ⟨h.1, h.2.2.2⟩

/-- C4: for every parser state and input line, (i) records are only ever
appended, so records appear in source-line order; (ii) a blank line or a
heading line always leaves no pending item; (iii) on a blank line or any
line matching a heading, numbered-item or bullet pattern, the pending item
(if any) is flushed — with the heading context current at that moment, i.e.
the context in force since the item's first line — before the line's own
effect, so the resulting records extend those of `flushBuffer`; and (iv)
whenever a pending item survives a step, the heading context is unchanged,
so the context a pending item is eventually flushed with is the one current
when the item's first line was encountered. -/
theorem c4_pending_item_invariants (st : PState) (raw : List Char) :
    (∃ new, (processLine st raw).parsed_data = st.parsed_data ++ new) ∧
    (((pyStripL raw).isEmpty = true ∨ matchLevel1 (pyStripL raw) = true ∨
        matchLevel2 (pyStripL raw) = true ∨ matchLevel3 (pyStripL raw) = true) →
      (processLine st raw).buffer = none) ∧
    (((pyStripL raw).isEmpty = true ∨ matchLevel1 (pyStripL raw) = true ∨
        matchLevel2 (pyStripL raw) = true ∨ matchLevel3 (pyStripL raw) = true ∨
        (matchListItem (pyStripL raw)).isSome = true ∨ (matchBullet raw).isSome = true) →
      ∃ new, (processLine st raw).parsed_data = (flushBuffer st).parsed_data ++ new) ∧
    ((processLine st raw).buffer.isSome = true →
      (processLine st raw).current_level1 = st.current_level1 ∧
      (processLine st raw).current_level2 = st.current_level2 ∧
      (processLine st raw).current_level3 = st.current_level3) := by
  by_cases hline : (pyStripL raw).isEmpty = true
  · rw [processLine_blank st raw hline]
    refine ⟨flushBuffer_parsed st, fun _ => flushBuffer_buffer st,
      fun _ => ⟨[], by simp⟩, ?_⟩
    intro h
    rw [flushBuffer_buffer st] at h
    simp at h
  · have h0 : (pyStripL raw).isEmpty = false := by simpa using hline
    obtain ⟨n1, e1⟩ := flushBuffer_parsed st
    by_cases hm1 : matchLevel1 (pyStripL raw) = true
    · rw [processLine_h1 st raw h0 hm1]
      refine ⟨⟨n1 ++ [⟨lstr (pyStripL raw), "", "", "", ""⟩], ?_⟩,
        fun _ => rfl, fun _ => ⟨[⟨lstr (pyStripL raw), "", "", "", ""⟩], rfl⟩, ?_⟩
      · show (flushBuffer st).parsed_data ++ _ = _
        rw [e1, List.append_assoc]
      · intro h
        simp at h
    · have hm1f : matchLevel1 (pyStripL raw) = false := by simpa using hm1
      by_cases hm2 : matchLevel2 (pyStripL raw) = true
      · rw [processLine_h2 st raw h0 hm1f hm2]
        refine ⟨⟨n1 ++ [⟨st.current_level1, lstr (pyStripL raw), "", "", ""⟩], ?_⟩,
          fun _ => rfl,
          fun _ => ⟨[⟨st.current_level1, lstr (pyStripL raw), "", "", ""⟩], rfl⟩, ?_⟩
        · show (flushBuffer st).parsed_data ++ _ = _
          rw [e1, List.append_assoc]
        · intro h
          simp at h
      · have hm2f : matchLevel2 (pyStripL raw) = false := by simpa using hm2
        by_cases hm3 : matchLevel3 (pyStripL raw) = true
        · rw [processLine_h3 st raw h0 hm1f hm2f hm3]
          refine ⟨⟨n1 ++ [⟨st.current_level1, st.current_level2, lstr (pyStripL raw), "", ""⟩], ?_⟩,
            fun _ => rfl,
            fun _ => ⟨[⟨st.current_level1, st.current_level2, lstr (pyStripL raw), "", ""⟩], rfl⟩, ?_⟩
          · show (flushBuffer st).parsed_data ++ _ = _
            rw [e1, List.append_assoc]
          · intro h
            simp at h
        · have hm3f : matchLevel3 (pyStripL raw) = false := by simpa using hm3
          cases hli : matchListItem (pyStripL raw) with
          | some nd =>
            rw [processLine_li st raw nd h0 hm1f hm2f hm3f hli]
            refine ⟨⟨n1, e1⟩, ?_, fun _ => ⟨[], by simp⟩, fun _ => ⟨rfl, rfl, rfl⟩⟩
            intro h
            rcases h with h | h | h | h <;> simp [h0, hm1f, hm2f, hm3f] at h
          | none =>
            cases hbu : matchBullet raw with
            | some d =>
              rw [processLine_bullet st raw d h0 hm1f hm2f hm3f hli hbu]
              refine ⟨⟨n1, e1⟩, ?_, fun _ => ⟨[], by simp⟩, fun _ => ⟨rfl, rfl, rfl⟩⟩
              intro h
              rcases h with h | h | h | h <;> simp [h0, hm1f, hm2f, hm3f] at h
            | none =>
              cases hb : st.buffer with
              | some nd =>
                rw [processLine_cont_some st raw nd h0 hm1f hm2f hm3f hli hbu hb]
                refine ⟨⟨[], by simp⟩, ?_, ?_, fun _ => ⟨rfl, rfl, rfl⟩⟩
                · intro h
                  rcases h with h | h | h | h <;> simp [h0, hm1f, hm2f, hm3f] at h
                · intro h
                  rcases h with h | h | h | h | h | h <;>
                    simp [h0, hm1f, hm2f, hm3f, hli, hbu] at h
              | none =>
                rw [processLine_cont_none st raw h0 hm1f hm2f hm3f hli hbu hb]
                refine ⟨⟨[], by simp⟩, ?_, ?_, fun _ => ⟨rfl, rfl, rfl⟩⟩
                · intro h
                  rcases h with h | h | h | h <;> simp [h0, hm1f, hm2f, hm3f] at h
                · intro h
                  rcases h with h | h | h | h | h | h <;>
                    simp [h0, hm1f, hm2f, hm3f, hli, hbu] at h

/-- Witness for C4: a heading-1 line arriving while an item is pending —
the pending item is flushed with the old context and no pending item
survives. -/
theorem c4_pending_item_invariants_witness :
    (processLine ⟨"H", "", "", some ("1", "x".toList), []⟩ ("2 Heading".toList)).buffer =
      none ∧
    (∃ new,
      (processLine ⟨"H", "", "", some ("1", "x".toList), []⟩ ("2 Heading".toList)).parsed_data =
        (flushBuffer ⟨"H", "", "", some ("1", "x".toList), []⟩).parsed_data ++ new) ∧
    ((processLine ⟨"H", "", "", some ("1", "x".toList), []⟩ ("more".toList)).buffer.isSome =
        true →
      (processLine ⟨"H", "", "", some ("1", "x".toList), []⟩ ("more".toList)).current_level1 =
        "H") := by
  refine ⟨(c4_pending_item_invariants ⟨"H", "", "", some ("1", "x".toList), []⟩
      ("2 Heading".toList)).2.1 (Or.inr (Or.inl (by decide))),
    (c4_pending_item_invariants ⟨"H", "", "", some ("1", "x".toList), []⟩
      ("2 Heading".toList)).2.2.1 (Or.inr (Or.inl (by decide))), ?_⟩
  intro h
  exact ((c4_pending_item_invariants ⟨"H", "", "", some ("1", "x".toList), []⟩
    ("more".toList)).2.2.2 h).1

/-- C5: on the heading-column value sequence ["A","A","","A"] (data rows 1-4,
sheet rows 2-5) the merge engine issues exactly one merge, of sheet rows 2-3
(the first two data rows); the maximal runs of the column are exactly rows
2-3 and the single row 5, so the last row stays alone; and in general every
row covered by a merged range holds a non-empty value, so an empty-valued
row terminates any open run and equal values on either side of it are never
merged together. -/
theorem c5_empty_terminates_runs :
    merge_consecutive_cells ["A", "A", "", "A"] = [(2, 3)] ∧
    maximalRun ["A", "A", "", "A"] 2 3 ∧
    maximalRun ["A", "A", "", "A"] 5 5 ∧
    (∀ a b, maximalRun ["A", "A", "", "A"] a b →
      ((a, b) = (2, 3) ∨ (a, b) = (5, 5))) ∧
    (∀ (vals : List String) (a b r : Nat),
      (a, b) ∈ merge_consecutive_cells vals → a ≤ r → r ≤ b → goodAt vals r) := by
  refine ⟨by decide, by decide, by decide, ?_, merge_mem_good⟩
  intro a b h
  have h1 : 2 ≤ a := h.1
  have h2 : a ≤ b := h.2.1
  have h3 : b ≤ 5 := by
    have := h.2.2.1
    simpa using this
  have h4 : a ≤ 5 := by omega
  interval_cases a <;> interval_cases b <;>
    first
      | decide
      | exact absurd h (by decide)

/-- Witness for C5: the run-uniqueness and non-empty-row parts instantiated
at the concrete column and at row 2 of its merged range. -/
theorem c5_empty_terminates_runs_witness :
    (((2, 3) : Nat × Nat) = (2, 3) ∨ ((2, 3) : Nat × Nat) = (5, 5)) ∧
    goodAt ["A", "A", "", "A"] 2 :=
  ⟨c5_empty_terminates_runs.2.2.2.1 2 3 (by decide),
    c5_empty_terminates_runs.2.2.2.2 ["A", "A", "", "A"] 2 3 2 (by decide) (by decide)
      (by decide)⟩

/-- C6: for every column value sequence, the merge engine emits exactly the
ranges `(a, b)` that are maximal runs of identical non-empty values spanning
at least two sheet rows (`a < b`), and the emitted ranges of the column are
strictly ordered — each range ends before the next begins — hence pairwise
non-overlapping. -/
theorem c6_merges_are_maximal_runs (vals : List String) :
    (∀ a b, ((a, b) ∈ merge_consecutive_cells vals ↔ (a < b ∧ maximalRun vals a b))) ∧
    List.Pairwise (fun p q : Nat × Nat => p.2 < q.1) (merge_consecutive_cells vals) :=
  ⟨merge_mem_iff vals, merge_pairwise vals⟩

/-- C7: parsing "1 Introduction", a blank line, then "1.1 Overview" yields
exactly a heading-1 record {level1="1 Introduction", rest empty} followed by
a heading-2 record {level1="1 Introduction", level2="1.1 Overview", level3
empty}; and in general a heading line at level N replaces level N with the
line's text, resets all deeper levels to empty, carries shallower levels
down unchanged, and emits the corresponding heading record. -/
theorem c7_heading_levels_reset :
    parse_text_to_excel_with_merging ("1 Introduction\n\n1.1 Overview") =
      [⟨"1 Introduction", "", "", "", ""⟩,
        ⟨"1 Introduction", "1.1 Overview", "", "", ""⟩] ∧
    (∀ (st : PState) (raw : List Char), (pyStripL raw).isEmpty = false →
      matchLevel1 (pyStripL raw) = true →
      processLine st raw =
        ⟨lstr (pyStripL raw), "", "", none,
          (flushBuffer st).parsed_data ++ [⟨lstr (pyStripL raw), "", "", "", ""⟩]⟩) ∧
    (∀ (st : PState) (raw : List Char), (pyStripL raw).isEmpty = false →
      matchLevel1 (pyStripL raw) = false → matchLevel2 (pyStripL raw) = true →
      processLine st raw =
        ⟨st.current_level1, lstr (pyStripL raw), "", none,
          (flushBuffer st).parsed_data ++
            [⟨st.current_level1, lstr (pyStripL raw), "", "", ""⟩]⟩) ∧
    (∀ (st : PState) (raw : List Char), (pyStripL raw).isEmpty = false →
      matchLevel1 (pyStripL raw) = false → matchLevel2 (pyStripL raw) = false →
      matchLevel3 (pyStripL raw) = true →
      processLine st raw =
        ⟨st.current_level1, st.current_level2, lstr (pyStripL raw), none,
          (flushBuffer st).parsed_data ++
            [⟨st.current_level1, st.current_level2, lstr (pyStripL raw), "", ""⟩]⟩) :=
  ⟨by decide, processLine_h1, processLine_h2, processLine_h3⟩

/-- Witness for C7: a level-2 heading arriving under an existing level-1,
level-2 and level-3 context replaces level 2, clears level 3 and keeps
level 1. -/
theorem c7_heading_levels_reset_witness :
    processLine ⟨"1 One", "1.1 Old", "1.1.1 Deep", none, []⟩ ("1.2 New".toList) =
      ⟨"1 One", "1.2 New", "", none, [⟨"1 One", "1.2 New", "", "", ""⟩]⟩ :=
  c7_heading_levels_reset.2.2.1 ⟨"1 One", "1.1 Old", "1.1.1 Deep", none, []⟩
    ("1.2 New".toList) (by decide) (by decide) (by decide)

/-- C8: the pipeline entry point, with the extraction collaborator's outcome
made explicit, always returns a structured result: every invocation yields
either an error value or a success value (never an uncaught exception); an
extraction exception is caught and returned as a structured error carrying
its message; and an extraction that succeeds with only whitespace yields the
structured "no content" error rather than throwing. -/
theorem c8_entry_point_total (extract : Except String String) :
    ((∃ m, parse_pdf_data_to_excel_eel extract = EelResult.error m) ∨
      (∃ g, parse_pdf_data_to_excel_eel extract = EelResult.success g)) ∧
    (∀ e, parse_pdf_data_to_excel_eel (Except.error e) = EelResult.error e) ∧
    (∀ t, pyStrip t = "" →
      parse_pdf_data_to_excel_eel (Except.ok t) =
        EelResult.error ("No text could be extracted from the PDF data.")) := by
  refine ⟨?_, fun e => rfl, ?_⟩
  · cases extract with
    | error e => exact Or.inl ⟨e, rfl⟩
    | ok t =>
      simp only [parse_pdf_data_to_excel_eel]
      by_cases h : (pyStripL t.toList).isEmpty = true
      · rw [if_pos h]
        exact Or.inl ⟨_, rfl⟩
      · rw [if_neg h]
        exact Or.inr ⟨_, rfl⟩
  · intro t ht
    have hnil : pyStripL t.toList = [] := by
      unfold pyStrip lstr at ht
      have h2 : (String.mk (pyStripL t.toList)).data = ("").data := by rw [ht]
      simpa using h2
    simp only [parse_pdf_data_to_excel_eel]
    rw [if_pos (show (pyStripL t.toList).isEmpty = true by rw [hnil]; rfl)]

/-- Witness for C8: extracting only a space yields the structured
"no content" error. -/
theorem c8_entry_point_total_witness :
    parse_pdf_data_to_excel_eel (Except.ok (" ")) =
      EelResult.error ("No text could be extracted from the PDF data.") :=
  (c8_entry_point_total (Except.ok (" "))).2.2 (" ") (by decide)

/-- C9: parsing the single line "• Buy milk" with no preceding heading
yields exactly one record with itemNo "•", itemDesc "Buy milk" and empty
heading fields; and in general, whenever the bullet pattern matches a raw
line (any glyph of the bullet set), the state machine buffers the item with
the fixed designator "•" — so every bullet record's fourth column is the
glyph "•" regardless of the source glyph. -/
theorem c9_bullet_designator :
    parse_text_to_excel_with_merging ("• Buy milk") = [⟨"", "", "", "•", "Buy milk"⟩] ∧
    (∀ (st : PState) (raw d : List Char), matchBullet raw = some d →
      processLine st raw =
        ⟨st.current_level1, st.current_level2, st.current_level3,
          some ("•", d), (flushBuffer st).parsed_data⟩) := by
  refine ⟨by decide, ?_⟩
  intro st raw d hmb
  obtain ⟨h0, hm1, hm2, hm3, hli⟩ := bullet_line_matchers raw d hmb
  exact processLine_bullet st raw d h0 hm1 hm2 hm3 hli hmb

/-- Witness for C9: a hyphen-bulleted line is buffered with designator "•",
not "-". -/
theorem c9_bullet_designator_witness :
    processLine initPState ("- dash item".toList) =
      ⟨"", "", "", some ("•", "dash item".toList), []⟩ :=
  c9_bullet_designator.2 initPState ("- dash item".toList) ("dash item".toList) (by decide)

/-- C10: whenever the parse of the input text emits zero records, the
produced grid is exactly the five-cell header row, and the merge routine,
seeing a sheet with fewer than two rows, returns immediately with no merged
ranges in any of the three heading columns. -/
theorem c10_empty_parse_header_only (text : String)
    (h : parse_text_to_excel_with_merging text = []) :
    toGrid (parse_text_to_excel_with_merging text) = [headers] ∧
    merge_consecutive_cells
      ((parse_text_to_excel_with_merging text).map (fun r => r.level1)) = [] ∧
    merge_consecutive_cells
      ((parse_text_to_excel_with_merging text).map (fun r => r.level2)) = [] ∧
    merge_consecutive_cells
      ((parse_text_to_excel_with_merging text).map (fun r => r.level3)) = [] := by
  rw [h]
  exact ⟨rfl, rfl, rfl, rfl⟩

/-- Witness for C10 at the empty input text. -/
theorem c10_empty_parse_header_only_witness :
    toGrid (parse_text_to_excel_with_merging ("")) = [headers] ∧
    merge_consecutive_cells
      ((parse_text_to_excel_with_merging ("")).map (fun r => r.level1)) = [] ∧
    merge_consecutive_cells
      ((parse_text_to_excel_with_merging ("")).map (fun r => r.level2)) = [] ∧
    merge_consecutive_cells
      ((parse_text_to_excel_with_merging ("")).map (fun r => r.level3)) = [] :=
  c10_empty_parse_header_only ("") (by decide)
